import Mathlib

/-!
Verification of the hamster-bridge change-detection core
(`src/hamster_bridge/bridge.py`): the fact cache, the diff/notification
engine `HamsterBridge.process`, the eviction helper
`cleanup_extraneous_facts_cache_entries`, and listener registration
`add_listener`.

Modelling choices, all read off the Python source:
* A `Fact` is a value type with an integer id, an optional end time and
  opaque descriptive fields (here: an activity label and a start time).
  Python `==` on facts is structural equality, mirrored by `DecidableEq`.
* The facts cache is `self._facts_cache : dict[int, Fact]`.  A Python
  dict is an insertion-ordered map with unique keys; we model it as an
  association list in which `cacheInsert` updates an existing key in
  place and appends a fresh key at the end, and eviction keeps exactly
  the pairs whose key still occurs in the snapshot (deleting keys from a
  dict preserves the order of the remaining entries, as `List.filter`
  does).
* Listeners are identified by a `Nat` (Python `listener not in
  self._listeners` is identity-based for plain objects).  Dispatch is
  recorded in an event trace: `Ev.started l f` means
  `l.on_fact_started(f)` was invoked, `Ev.stopped l f` means
  `l.on_fact_stopped(f)` was invoked.
* `process` is the no-exception run of one tick.  `processE` is the same
  code with a `Behavior` telling which listener calls raise; an
  exception aborts the tick with the state and trace accumulated so far
  (`Except.error`), exactly as an uncaught Python exception would.
-/

namespace HamsterBridge

structure Fact where
  id : Int
  activity : String
  start_time : Nat
  end_time : Option Nat
deriving DecidableEq, Repr

/-- The facts cache `self._facts_cache : dict[int, Fact]`, as an
insertion-ordered association list with (by use) unique keys. -/
abbrev FactsCache := List (Int × Fact)

/-- Lookup, `self._facts_cache.get(fact.id)`. -/
def cacheGet : FactsCache → Int → Option Fact
  | [], _ => none
  | p :: rest, k => if p.1 = k then some p.2 else cacheGet rest k

/-- Store, `self._facts_cache[fact.id] = fact`: update the key in place
if present, append otherwise (Python dict semantics). -/
def cacheInsert : FactsCache → Int → Fact → FactsCache
  | [], k, v => [(k, v)]
  | p :: rest, k, v =>
      if p.1 = k then (k, v) :: rest else p :: cacheInsert rest k v

/-- `HamsterBridge.cleanup_extraneous_facts_cache_entries`: delete every
cache entry whose key is not among the current snapshot's fact ids. -/
def cleanup_extraneous_facts_cache_entries
    (c : FactsCache) (current_facts : List Fact) : FactsCache :=
  c.filter (fun p => current_facts.any (fun f => f.id = p.1))

/-- One observable listener invocation. -/
inductive Ev where
  | started (l : Nat) (f : Fact)
  | stopped (l : Nat) (f : Fact)
deriving DecidableEq, Repr

/-- The fact an event is about. -/
def Ev.factOf : Ev → Fact
  | started _ f => f
  | stopped _ f => f

/-- The events of a trace that concern fact `f`. -/
def evsFor (f : Fact) (evs : List Ev) : List Ev :=
  evs.filter (fun ev => ev.factOf = f)

/-- `HamsterBridge.add_listener`: append unless already registered. -/
def add_listener (ls : List Nat) (l : Nat) : List Nat :=
  if l ∈ ls then ls else ls ++ [l]

/-- The body of the `for fact in current_facts` loop of
`HamsterBridge.process`, for one fact, with no listener raising:
skip when the cached fact equals the snapshot (`cached_fact == fact`),
otherwise fire `on_fact_started` when the id was uncached, fire
`on_fact_stopped` when the fact has an end time and the cached snapshot
did not (`is_cached_fact_started = not (cached_fact and
cached_fact.end_time)`), and unconditionally store the snapshot. -/
def processFact (ls : List Nat) (c : FactsCache) (f : Fact) :
    FactsCache × List Ev :=
  let cached_fact := cacheGet c f.id
  if cached_fact = some f then (c, [])
  else
    let startEvs :=
      if cached_fact = none then ls.map (fun l => Ev.started l f) else []
    let is_cached_fact_started : Bool :=
      match cached_fact with
      | none => true
      | some cf => cf.end_time.isNone
    let stopEvs :=
      if f.end_time.isSome && is_cached_fact_started then
        ls.map (fun l => Ev.stopped l f)
      else []
    (cacheInsert c f.id f, startEvs ++ stopEvs)

/-- The `for fact in current_facts` loop of `HamsterBridge.process`. -/
def processFacts (ls : List Nat) (c : FactsCache) :
    List Fact → FactsCache × List Ev
  | [] => (c, [])
  | f :: rest =>
      let r := processFact ls c f
      let r2 := processFacts ls r.1 rest
      (r2.1, r.2 ++ r2.2)

/-- `HamsterBridge.process` for one tick with snapshot `current_facts`
and no listener raising: evict stale entries, then diff each current
fact against the cache.  Returns the new cache and the trace of listener
invocations. -/
def process (ls : List Nat) (c : FactsCache) (current_facts : List Fact) :
    FactsCache × List Ev :=
  processFacts ls (cleanup_extraneous_facts_cache_entries c current_facts)
    current_facts

/-- Which listener calls raise: `failStart l f` (resp. `failStop l f`)
is true when `l.on_fact_started(f)` (resp. `l.on_fact_stopped(f)`)
raises an exception. -/
structure Behavior where
  failStart : Nat → Fact → Bool
  failStop : Nat → Fact → Bool

/-- The behavior in which no listener call raises. -/
def noFail : Behavior := ⟨fun _ _ => false, fun _ _ => false⟩

/-- The `on_fact_started` dispatch loop under behavior `B`: invoke each
listener in order; a raising listener aborts the loop (its invocation is
recorded, the listeners after it are not called). -/
def dispatchStartedE (B : Behavior) (f : Fact) :
    List Nat → Except (List Ev) (List Ev)
  | [] => .ok []
  | l :: rest =>
      if B.failStart l f then .error [Ev.started l f]
      else
        match dispatchStartedE B f rest with
        | .ok evs => .ok (Ev.started l f :: evs)
        | .error evs => .error (Ev.started l f :: evs)

/-- The `on_fact_stopped` dispatch loop under behavior `B`. -/
def dispatchStoppedE (B : Behavior) (f : Fact) :
    List Nat → Except (List Ev) (List Ev)
  | [] => .ok []
  | l :: rest =>
      if B.failStop l f then .error [Ev.stopped l f]
      else
        match dispatchStoppedE B f rest with
        | .ok evs => .ok (Ev.stopped l f :: evs)
        | .error evs => .error (Ev.stopped l f :: evs)

/-- One fact of the `process` loop under behavior `B`.  An exception in
a dispatch loop leaves the cache entry for `f.id` unwritten, because
`self._facts_cache[fact.id] = fact` runs only after both loops. -/
def processFactE (B : Behavior) (ls : List Nat) (c : FactsCache)
    (f : Fact) : Except (FactsCache × List Ev) (FactsCache × List Ev) :=
  let cached_fact := cacheGet c f.id
  if cached_fact = some f then .ok (c, [])
  else
    let is_cached_fact_started : Bool :=
      match cached_fact with
      | none => true
      | some cf => cf.end_time.isNone
    match (if cached_fact = none then dispatchStartedE B f ls else .ok []) with
    | .error evs => .error (c, evs)
    | .ok startEvs =>
        match (if f.end_time.isSome && is_cached_fact_started then
                 dispatchStoppedE B f ls
               else .ok []) with
        | .error evs => .error (c, startEvs ++ evs)
        | .ok stopEvs => .ok (cacheInsert c f.id f, startEvs ++ stopEvs)

/-- The fact loop of `process` under behavior `B`: an exception while
processing a fact aborts the remaining facts of the tick, keeping the
cache updates of the facts already processed. -/
def processFactsE (B : Behavior) (ls : List Nat) (c : FactsCache) :
    List Fact → Except (FactsCache × List Ev) (FactsCache × List Ev)
  | [] => .ok (c, [])
  | f :: rest =>
      match processFactE B ls c f with
      | .error r => .error r
      | .ok r =>
          match processFactsE B ls r.1 rest with
          | .error r2 => .error (r2.1, r.2 ++ r2.2)
          | .ok r2 => .ok (r2.1, r.2 ++ r2.2)

/-- `HamsterBridge.process` under behavior `B`: `Except.error` carries
the cache and trace at the moment the uncaught exception propagates. -/
def processE (B : Behavior) (ls : List Nat) (c : FactsCache)
    (current_facts : List Fact) :
    Except (FactsCache × List Ev) (FactsCache × List Ev) :=
  processFactsE B ls
    (cleanup_extraneous_facts_cache_entries c current_facts) current_facts

/-- Sample fact: id 1, in progress. -/
def factOpen1 : Fact := ⟨1, "a", 9, none⟩

/-- Sample fact: id 1, stopped at time 17. -/
def factClosed1 : Fact := ⟨1, "a", 9, some 17⟩

/-- Sample fact: id 2, in progress. -/
def factOpen2 : Fact := ⟨2, "b", 8, none⟩

/-- Sample fact: id 1, in progress, with an edited label. -/
def factEdited1 : Fact := ⟨1, "c", 9, none⟩

/-- A behavior in which every listener call raises. -/
def alwaysRaise : Behavior := ⟨fun _ _ => true, fun _ _ => true⟩

theorem cacheGet_cacheInsert_self (c : FactsCache) (k : Int) (v : Fact) :
    cacheGet (cacheInsert c k v) k = some v := by
  induction c with
  | nil => simp [cacheInsert, cacheGet]
  | cons p rest ih =>
      by_cases h : p.1 = k
      · simp [cacheInsert, cacheGet, h]
      · simp [cacheInsert, cacheGet, h, ih]

theorem cacheGet_cacheInsert_ne (c : FactsCache) (k : Int) (v : Fact)
    (k' : Int) (h : k' ≠ k) :
    cacheGet (cacheInsert c k v) k' = cacheGet c k' := by
  have hk : ¬ k = k' := fun hk => h hk.symm
  induction c with
  | nil => simp [cacheInsert, cacheGet, hk]
  | cons p rest ih =>
      by_cases hp : p.1 = k
      · simp [cacheInsert, cacheGet, hp, hk]
      · simp [cacheInsert, cacheGet, hp, ih]

theorem mem_cacheInsert (c : FactsCache) (k : Int) (v : Fact)
    (p : Int × Fact) (hp : p ∈ cacheInsert c k v) : p = (k, v) ∨ p ∈ c := by
  induction c with
  | nil => simpa [cacheInsert] using hp
  | cons q rest ih =>
      by_cases hq : q.1 = k
      · simp only [cacheInsert, if_pos hq, List.mem_cons] at hp
        rcases hp with hp | hp
        · exact Or.inl hp
        · exact Or.inr (List.mem_cons_of_mem _ hp)
      · simp only [cacheInsert, if_neg hq, List.mem_cons] at hp
        rcases hp with hp | hp
        · exact Or.inr (hp ▸ List.mem_cons_self _ _)
        · rcases ih hp with h | h
          · exact Or.inl h
          · exact Or.inr (List.mem_cons_of_mem _ h)

theorem mem_cleanup (c : FactsCache) (fs : List Fact) (p : Int × Fact)
    (hp : p ∈ cleanup_extraneous_facts_cache_entries c fs) :
    p ∈ c ∧ ∃ f ∈ fs, f.id = p.1 := by
  unfold cleanup_extraneous_facts_cache_entries at hp
  rcases List.mem_filter.mp hp with ⟨hmem, hpred⟩
  refine ⟨hmem, ?_⟩
  simpa using hpred

theorem cacheGet_filter_of_key (c : FactsCache) (q : Int × Fact → Bool)
    (k : Int) (hq : ∀ p : Int × Fact, p.1 = k → q p = true) :
    cacheGet (c.filter q) k = cacheGet c k := by
  induction c with
  | nil => rfl
  | cons p rest ih =>
      by_cases hp : p.1 = k
      · rw [List.filter_cons, if_pos (by simp [hq p hp])]
        simp [cacheGet, hp]
      · by_cases hqp : q p = true
        · rw [List.filter_cons, if_pos (by simp [hqp])]
          simp [cacheGet, hp, ih]
        · rw [List.filter_cons, if_neg (by simp [hqp])]
          simp [cacheGet, hp, ih]

theorem cacheGet_eq_none_iff (c : FactsCache) (k : Int) :
    cacheGet c k = none ↔ ∀ p ∈ c, p.1 ≠ k := by
  induction c with
  | nil => simp [cacheGet]
  | cons p rest ih =>
      by_cases hp : p.1 = k
      · simp [cacheGet, hp]
      · simp [cacheGet, hp, ih]

theorem cacheGet_cleanup_of_mem (c : FactsCache) (fs : List Fact) (k : Int)
    (hk : ∃ f ∈ fs, f.id = k) :
    cacheGet (cleanup_extraneous_facts_cache_entries c fs) k = cacheGet c k := by
  refine cacheGet_filter_of_key c _ k ?_
  intro p hp
  rcases hk with ⟨f, hf, hfk⟩
  exact List.any_eq_true.mpr ⟨f, hf, by simp [hfk, hp]⟩

theorem cacheGet_cleanup_of_not_mem (c : FactsCache) (fs : List Fact) (k : Int)
    (hk : ∀ f ∈ fs, f.id ≠ k) :
    cacheGet (cleanup_extraneous_facts_cache_entries c fs) k = none := by
  rw [cacheGet_eq_none_iff]
  intro p hp
  rcases mem_cleanup c fs p hp with ⟨_, f, hf, hfk⟩
  exact fun hpk => hk f hf (hfk.trans hpk)

theorem cacheGet_cleanup_none (c : FactsCache) (fs : List Fact) (k : Int)
    (hk : cacheGet c k = none) :
    cacheGet (cleanup_extraneous_facts_cache_entries c fs) k = none := by
  rw [cacheGet_eq_none_iff]
  intro p hp
  exact (cacheGet_eq_none_iff c k).mp hk p (mem_cleanup c fs p hp).1

theorem cleanup_eq_self (c : FactsCache) (fs : List Fact)
    (h : ∀ p ∈ c, ∃ f ∈ fs, f.id = p.1) :
    cleanup_extraneous_facts_cache_entries c fs = c := by
  unfold cleanup_extraneous_facts_cache_entries
  refine List.filter_eq_self.mpr ?_
  intro p hp
  rcases h p hp with ⟨f, hf, hfk⟩
  exact List.any_eq_true.mpr ⟨f, hf, by simp [hfk]⟩

/-! Characterizations of the four outcomes of one loop body. -/

theorem processFact_skip (ls : List Nat) (c : FactsCache) (f : Fact)
    (h : cacheGet c f.id = some f) : processFact ls c f = (c, []) := by
  simp [processFact, h]

theorem processFact_new_open (ls : List Nat) (c : FactsCache) (f : Fact)
    (h : cacheGet c f.id = none) (he : f.end_time = none) :
    processFact ls c f =
      (cacheInsert c f.id f, ls.map (fun l => Ev.started l f)) := by
  simp [processFact, h, he]

theorem processFact_new_closed (ls : List Nat) (c : FactsCache) (f : Fact)
    (h : cacheGet c f.id = none) (he : f.end_time ≠ none) :
    processFact ls c f =
      (cacheInsert c f.id f,
        ls.map (fun l => Ev.started l f) ++ ls.map (fun l => Ev.stopped l f)) := by
  rcases Option.ne_none_iff_exists'.mp he with ⟨t, ht⟩
  simp [processFact, h, ht]

theorem processFact_stop_transition (ls : List Nat) (c : FactsCache)
    (f cf : Fact) (h : cacheGet c f.id = some cf)
    (hopen : cf.end_time = none) (hclosed : f.end_time ≠ none) :
    processFact ls c f =
      (cacheInsert c f.id f, ls.map (fun l => Ev.stopped l f)) := by
  have hne : cf ≠ f := fun he => hclosed (he ▸ hopen)
  rcases Option.ne_none_iff_exists'.mp hclosed with ⟨t, ht⟩
  simp [processFact, h, hne, hopen, ht]

theorem processFact_events_silent (ls : List Nat) (c : FactsCache)
    (f cf : Fact) (h : cacheGet c f.id = some cf)
    (hiff : (cf.end_time = none ↔ f.end_time = none)) :
    (processFact ls c f).2 = [] := by
  by_cases he : cf = f
  · rw [processFact_skip ls c f (he ▸ h)]
  · rcases hf : f.end_time with _ | t
    · simp [processFact, h, he, hf, hiff.mpr hf]
    · have hcf : cf.end_time ≠ none := fun hn => by
        rw [hiff.mp hn] at hf
        cases hf
      rcases Option.ne_none_iff_exists'.mp hcf with ⟨s, hs⟩
      simp [processFact, h, he, hf, hs]

theorem cacheGet_processFact_self (ls : List Nat) (c : FactsCache) (f : Fact) :
    cacheGet (processFact ls c f).1 f.id = some f := by
  by_cases h : cacheGet c f.id = some f
  · rw [processFact_skip ls c f h]
    exact h
  · have h1 : (processFact ls c f).1 = cacheInsert c f.id f := by
      simp [processFact, h]
    rw [h1, cacheGet_cacheInsert_self]

theorem cacheGet_processFact_ne (ls : List Nat) (c : FactsCache) (f : Fact)
    (k : Int) (hk : k ≠ f.id) :
    cacheGet (processFact ls c f).1 k = cacheGet c k := by
  by_cases h : cacheGet c f.id = some f
  · rw [processFact_skip ls c f h]
  · have h1 : (processFact ls c f).1 = cacheInsert c f.id f := by
      simp [processFact, h]
    rw [h1, cacheGet_cacheInsert_ne c f.id f k hk]

theorem factOf_of_mem_processFact (ls : List Nat) (c : FactsCache) (f : Fact)
    (ev : Ev) (hev : ev ∈ (processFact ls c f).2) : ev.factOf = f := by
  simp only [processFact] at hev
  split at hev
  · simp at hev
  · simp only [List.mem_append] at hev
    rcases hev with hev | hev
    · split at hev
      · rcases List.mem_map.mp hev with ⟨l, _, rfl⟩
        rfl
      · simp at hev
    · split at hev
      · rcases List.mem_map.mp hev with ⟨l, _, rfl⟩
        rfl
      · simp at hev

/-! Lemmas about the whole fact loop. -/

theorem factOf_of_mem_processFacts (ls : List Nat) (c : FactsCache)
    (fs : List Fact) (ev : Ev) (hev : ev ∈ (processFacts ls c fs).2) :
    ev.factOf ∈ fs := by
  induction fs generalizing c with
  | nil => simp [processFacts] at hev
  | cons f rest ih =>
      simp only [processFacts, List.mem_append] at hev
      rcases hev with hev | hev
      · rw [factOf_of_mem_processFact ls c f ev hev]
        exact List.mem_cons_self _ _
      · exact List.mem_cons_of_mem _ (ih _ hev)

theorem cacheGet_processFacts_not_mem (ls : List Nat) (c : FactsCache)
    (fs : List Fact) (k : Int) (h : ∀ f ∈ fs, f.id ≠ k) :
    cacheGet (processFacts ls c fs).1 k = cacheGet c k := by
  induction fs generalizing c with
  | nil => rfl
  | cons f rest ih =>
      simp only [processFacts]
      rw [ih _ (fun g hg => h g (List.mem_cons_of_mem _ hg)),
        cacheGet_processFact_ne ls c f k
          (fun hk => h f (List.mem_cons_self _ _) hk.symm)]

theorem cacheGet_processFacts_self (ls : List Nat) (c : FactsCache)
    (fs : List Fact) (f : Fact) (hnd : (fs.map Fact.id).Nodup) (hf : f ∈ fs) :
    cacheGet (processFacts ls c fs).1 f.id = some f := by
  induction fs generalizing c with
  | nil => cases hf
  | cons g rest ih =>
      simp only [List.map_cons, List.nodup_cons] at hnd
      rcases List.mem_cons.mp hf with rfl | hf'
      · simp only [processFacts]
        rw [cacheGet_processFacts_not_mem ls _ rest f.id ?_,
          cacheGet_processFact_self]
        intro g' hg' hgid
        exact hnd.1 (hgid ▸ List.mem_map_of_mem Fact.id hg')
      · exact ih _ hnd.2 hf'

theorem mem_processFacts_cache (ls : List Nat) (c : FactsCache)
    (fs : List Fact) (p : Int × Fact) (hp : p ∈ (processFacts ls c fs).1) :
    p ∈ c ∨ ∃ f ∈ fs, f.id = p.1 := by
  induction fs generalizing c with
  | nil => exact Or.inl hp
  | cons f rest ih =>
      simp only [processFacts] at hp
      rcases ih _ hp with hp' | ⟨g, hg, hgid⟩
      · by_cases hc : cacheGet c f.id = some f
        · rw [processFact_skip ls c f hc] at hp'
          exact Or.inl hp'
        · have h1 : (processFact ls c f).1 = cacheInsert c f.id f := by
            simp [processFact, hc]
          rw [h1] at hp'
          rcases mem_cacheInsert c f.id f p hp' with h | h
          · exact Or.inr ⟨f, List.mem_cons_self _ _, by rw [h]⟩
          · exact Or.inl h
      · exact Or.inr ⟨g, List.mem_cons_of_mem _ hg, hgid⟩

theorem processFacts_skip (ls : List Nat) (c : FactsCache) (fs : List Fact)
    (h : ∀ f ∈ fs, cacheGet c f.id = some f) :
    processFacts ls c fs = (c, []) := by
  induction fs with
  | nil => rfl
  | cons f rest ih =>
      simp only [processFacts]
      rw [processFact_skip ls c f (h f (List.mem_cons_self _ _)),
        ih (fun g hg => h g (List.mem_cons_of_mem _ hg))]
      rfl

theorem evsFor_processFacts (ls : List Nat) (c : FactsCache) (fs : List Fact)
    (f : Fact) (hnd : (fs.map Fact.id).Nodup) (hf : f ∈ fs) :
    ∃ c1, cacheGet c1 f.id = cacheGet c f.id ∧
      evsFor f (processFacts ls c fs).2 = (processFact ls c1 f).2 := by
  induction fs generalizing c with
  | nil => cases hf
  | cons g rest ih =>
      simp only [List.map_cons, List.nodup_cons] at hnd
      rcases List.mem_cons.mp hf with rfl | hf'
      · refine ⟨c, rfl, ?_⟩
        simp only [processFacts, evsFor, List.filter_append]
        have h1 : (processFact ls c f).2.filter (fun ev => ev.factOf = f) =
            (processFact ls c f).2 :=
          List.filter_eq_self.mpr (fun ev hev => by
            simp [factOf_of_mem_processFact ls c f ev hev])
        have h2 : ((processFacts ls (processFact ls c f).1 rest).2).filter
            (fun ev => ev.factOf = f) = [] := by
          refine List.filter_eq_nil_iff.mpr ?_
          intro ev hev
          have hmem := factOf_of_mem_processFacts ls _ rest ev hev
          simp only [decide_eq_true_eq]
          intro hevf
          exact hnd.1 (List.mem_map_of_mem Fact.id (hevf ▸ hmem))
        rw [h1, h2, List.append_nil]
      · have hgf : g ≠ f := by
          intro h
          exact hnd.1 (h ▸ List.mem_map_of_mem Fact.id hf')
        have hgid : f.id ≠ g.id := by
          intro h
          exact hnd.1 (h ▸ List.mem_map_of_mem Fact.id hf')
        have h0 : (processFact ls c g).2.filter (fun ev => ev.factOf = f) = [] := by
          refine List.filter_eq_nil_iff.mpr ?_
          intro ev hev
          rw [factOf_of_mem_processFact ls c g ev hev]
          simp only [decide_eq_true_eq]
          exact hgf
        rcases ih (processFact ls c g).1 hnd.2 hf' with ⟨c1, hc1, hevs⟩
        refine ⟨c1, ?_, ?_⟩
        · rw [hc1, cacheGet_processFact_ne ls c g f.id hgid]
        · simp only [processFacts, evsFor, List.filter_append]
          rw [h0, List.nil_append]
          exact hevs

/-! Lemmas about one whole tick. -/

theorem cacheGet_process_self (ls : List Nat) (c : FactsCache) (fs : List Fact)
    (f : Fact) (hnd : (fs.map Fact.id).Nodup) (hf : f ∈ fs) :
    cacheGet (process ls c fs).1 f.id = some f :=
  cacheGet_processFacts_self ls _ fs f hnd hf

theorem mem_process_cache (ls : List Nat) (c : FactsCache) (fs : List Fact)
    (p : Int × Fact) (hp : p ∈ (process ls c fs).1) :
    ∃ f ∈ fs, f.id = p.1 := by
  rcases mem_processFacts_cache ls _ fs p hp with h | h
  · exact (mem_cleanup c fs p h).2
  · exact h

theorem process_idem (ls : List Nat) (c : FactsCache) (fs : List Fact)
    (hnd : (fs.map Fact.id).Nodup) :
    process ls (process ls c fs).1 fs = ((process ls c fs).1, []) := by
  rw [process,
    cleanup_eq_self _ fs (fun p hp => mem_process_cache ls c fs p hp)]
  exact processFacts_skip ls _ fs
    (fun f hf => cacheGet_process_self ls c fs f hnd hf)

theorem evsFor_process (ls : List Nat) (c : FactsCache) (fs : List Fact)
    (f : Fact) (hnd : (fs.map Fact.id).Nodup) (hf : f ∈ fs) :
    ∃ c1, cacheGet c1 f.id = cacheGet c f.id ∧
      evsFor f (process ls c fs).2 = (processFact ls c1 f).2 := by
  rcases evsFor_processFacts ls (cleanup_extraneous_facts_cache_entries c fs)
      fs f hnd hf with ⟨c1, hc1, hevs⟩
  exact ⟨c1,
    by rw [hc1, cacheGet_cleanup_of_mem c fs f.id ⟨f, hf, rfl⟩], hevs⟩

theorem count_evsFor (f : Fact) (evs : List Ev) (ev : Ev)
    (hev : ev.factOf = f) : (evsFor f evs).count ev = evs.count ev := by
  unfold evsFor
  exact List.count_filter (by simp [hev])

theorem mem_evsFor (f : Fact) (evs : List Ev) (ev : Ev)
    (hev : ev.factOf = f) (h : ev ∈ evs) : ev ∈ evsFor f evs :=
  List.mem_filter.mpr ⟨h, by simp [hev]⟩

/-! The claims. -/

/-- Claim C1: if the cache holds fact `f.id` with no end time and the current
snapshot contains `f` with an end time, one tick of `process` invokes
`on_fact_stopped(f)` exactly once on every registered listener (in
registration order), never invokes `on_fact_started` for `f`, and
re-processing the now-unchanged snapshot fires no further callbacks. -/
theorem C1_stop_transition_fires_stop_once (ls : List Nat) (c : FactsCache)
    (fs : List Fact) (f cf : Fact)
    (hnd : (fs.map Fact.id).Nodup) (hf : f ∈ fs)
    (hcached : cacheGet c f.id = some cf)
    (hopen : cf.end_time = none) (hclosed : f.end_time ≠ none) :
    evsFor f (process ls c fs).2 = ls.map (fun l => Ev.stopped l f) ∧
    (∀ l, Ev.started l f ∉ (process ls c fs).2) ∧
    (ls.Nodup → ∀ l ∈ ls, (process ls c fs).2.count (Ev.stopped l f) = 1) ∧
    process ls (process ls c fs).1 fs = ((process ls c fs).1, []) := by
  have hevs : evsFor f (process ls c fs).2 =
      ls.map (fun l => Ev.stopped l f) := by
    rcases evsFor_process ls c fs f hnd hf with ⟨c1, hc1, hevs⟩
    rw [hevs,
      processFact_stop_transition ls c1 f cf (hc1.trans hcached) hopen hclosed]
  refine ⟨hevs, ?_, ?_, process_idem ls c fs hnd⟩
  · intro l hl
    have hmem := mem_evsFor f (process ls c fs).2 (Ev.started l f) rfl hl
    rw [hevs] at hmem
    rcases List.mem_map.mp hmem with ⟨l', _, h⟩
    cases h
  · intro hls l hl
    rw [← count_evsFor f (process ls c fs).2 (Ev.stopped l f) rfl, hevs,
      List.count_map_of_injective ls (fun l' => Ev.stopped l' f)
        (fun a b hab => by simpa using hab) l]
    exact List.count_eq_one_of_mem hls hl

/-- Claim C2: a fact observed for the first time with its end time already
set triggers `on_fact_started` on every listener and then
`on_fact_stopped` on every listener, in that order, in the same tick. -/
theorem C2_new_closed_fact_fires_start_then_stop (ls : List Nat)
    (c : FactsCache) (fs : List Fact) (f : Fact)
    (hnd : (fs.map Fact.id).Nodup) (hf : f ∈ fs)
    (hcached : cacheGet c f.id = none) (hclosed : f.end_time ≠ none) :
    evsFor f (process ls c fs).2 =
      ls.map (fun l => Ev.started l f) ++ ls.map (fun l => Ev.stopped l f) := by
  rcases evsFor_process ls c fs f hnd hf with ⟨c1, hc1, hevs⟩
  rw [hevs,
    processFact_new_closed ls c1 f (hc1.trans hcached) hclosed]

/-- Claim C3: a fact observed for the first time with no end time triggers
`on_fact_started` on every listener, in registration order, and no
`on_fact_stopped` in that tick. -/
theorem C3_new_open_fact_fires_start_only (ls : List Nat) (c : FactsCache)
    (fs : List Fact) (f : Fact)
    (hnd : (fs.map Fact.id).Nodup) (hf : f ∈ fs)
    (hcached : cacheGet c f.id = none) (hopen : f.end_time = none) :
    evsFor f (process ls c fs).2 = ls.map (fun l => Ev.started l f) ∧
    (∀ l, Ev.stopped l f ∉ (process ls c fs).2) := by
  have hevs : evsFor f (process ls c fs).2 =
      ls.map (fun l => Ev.started l f) := by
    rcases evsFor_process ls c fs f hnd hf with ⟨c1, hc1, hevs⟩
    rw [hevs, processFact_new_open ls c1 f (hc1.trans hcached) hopen]
  refine ⟨hevs, ?_⟩
  intro l hl
  have hmem := mem_evsFor f (process ls c fs).2 (Ev.stopped l f) rfl hl
  rw [hevs] at hmem
  rcases List.mem_map.mp hmem with ⟨l', _, h⟩
  cases h

/-- Claim C4: processing a snapshot that matches the cache exactly (same key
set, structurally equal values) fires zero callbacks and leaves the
cache unchanged. -/
theorem C4_unchanged_snapshot_is_silent (ls : List Nat) (c : FactsCache)
    (fs : List Fact)
    (hkeys : ∀ p ∈ c, ∃ f ∈ fs, f.id = p.1)
    (hvals : ∀ f ∈ fs, cacheGet c f.id = some f) :
    process ls c fs = (c, []) := by
  rw [process, cleanup_eq_self c fs hkeys]
  exact processFacts_skip ls c fs hvals

/-- Claim C5: after one tick on a snapshot with pairwise-distinct fact ids,
the cache maps every snapshot fact's id to exactly that fact and
contains no key outside the snapshot's ids. -/
theorem C5_cache_mirrors_snapshot (ls : List Nat) (c : FactsCache)
    (fs : List Fact) (hnd : (fs.map Fact.id).Nodup) :
    (∀ f ∈ fs, cacheGet (process ls c fs).1 f.id = some f) ∧
    (∀ p ∈ (process ls c fs).1, ∃ f ∈ fs, f.id = p.1) :=
  ⟨fun f hf => cacheGet_process_self ls c fs f hnd hf,
   fun p hp => mem_process_cache ls c fs p hp⟩

/-- Claim C6: a cached fact absent from the snapshot (here: one that never
showed an end time) is evicted from the cache and no listener callback
fires for it. -/
theorem C6_eviction_is_silent (ls : List Nat) (c : FactsCache)
    (fs : List Fact) (k : Int) (cf : Fact)
    (hcached : cacheGet c k = some cf) (hnever : cf.end_time = none)
    (habsent : ∀ f ∈ fs, f.id ≠ k) :
    cacheGet (process ls c fs).1 k = none ∧
    (∀ ev ∈ (process ls c fs).2, ev.factOf.id ≠ k) := by
  constructor
  · rw [process, cacheGet_processFacts_not_mem ls _ fs k habsent,
      cacheGet_cleanup_of_not_mem c fs k habsent]
  · intro ev hev
    exact habsent ev.factOf (factOf_of_mem_processFacts ls _ fs ev hev)

/-- Claim C7: a cached fact whose end-time presence did not change fires no
start/stop callbacks; the only cache change at its id is that the entry
is replaced by the new snapshot, and storing a fact touches no other
key. -/
theorem C7_non_transition_update_is_silent (ls : List Nat) (c : FactsCache)
    (fs : List Fact) (f cf : Fact)
    (hnd : (fs.map Fact.id).Nodup) (hf : f ∈ fs)
    (hcached : cacheGet c f.id = some cf)
    (hiff : (cf.end_time = none ↔ f.end_time = none)) :
    evsFor f (process ls c fs).2 = [] ∧
    cacheGet (process ls c fs).1 f.id = some f ∧
    (∀ c2 k, k ≠ f.id → cacheGet (processFact ls c2 f).1 k = cacheGet c2 k) := by
  refine ⟨?_, cacheGet_process_self ls c fs f hnd hf,
    fun c2 k hk => cacheGet_processFact_ne ls c2 f k hk⟩
  rcases evsFor_process ls c fs f hnd hf with ⟨c1, hc1, hevs⟩
  rw [hevs]
  exact processFact_events_silent ls c1 f cf (hc1.trans hcached) hiff

/-- Claim C8: `add_listener` is idempotent — registering the same listener
twice leaves one entry, and a registry built this way dispatches one
invocation of that listener per event. -/
theorem C8_add_listener_idempotent (ls : List Nat) (l : Nat) (f : Fact) :
    add_listener (add_listener ls l) l = add_listener ls l ∧
    (l ∉ ls → (add_listener ls l).count l = 1 ∧
      ((add_listener ls l).map (fun l' => Ev.started l' f)).count
        (Ev.started l f) = 1) := by
  constructor
  · unfold add_listener
    by_cases h : l ∈ ls
    · simp [h]
    · simp [h]
  · intro h
    unfold add_listener
    rw [if_neg h]
    constructor
    · simp [List.count_eq_zero.mpr h]
    · rw [List.count_map_of_injective (ls ++ [l])
        (fun l' => Ev.started l' f) (fun a b hab => by simpa using hab) l]
      simp [List.count_eq_zero.mpr h]

/-! Lemmas about the exception-aware run. -/

theorem dispatchStartedE_ok (B : Behavior) (f : Fact) (ls : List Nat)
    (h : ∀ l ∈ ls, B.failStart l f = false) :
    dispatchStartedE B f ls = .ok (ls.map (fun l => Ev.started l f)) := by
  induction ls with
  | nil => rfl
  | cons l rest ih =>
      simp [dispatchStartedE, h l (List.mem_cons_self _ _),
        ih (fun l' hl' => h l' (List.mem_cons_of_mem _ hl'))]

theorem dispatchStoppedE_ok (B : Behavior) (f : Fact) (ls : List Nat)
    (h : ∀ l ∈ ls, B.failStop l f = false) :
    dispatchStoppedE B f ls = .ok (ls.map (fun l => Ev.stopped l f)) := by
  induction ls with
  | nil => rfl
  | cons l rest ih =>
      simp [dispatchStoppedE, h l (List.mem_cons_self _ _),
        ih (fun l' hl' => h l' (List.mem_cons_of_mem _ hl'))]

theorem dispatchStartedE_error (B : Behavior) (f : Fact) (ls1 : List Nat)
    (l : Nat) (ls2 : List Nat)
    (h1 : ∀ l' ∈ ls1, B.failStart l' f = false)
    (h2 : B.failStart l f = true) :
    dispatchStartedE B f (ls1 ++ l :: ls2) =
      .error ((ls1 ++ [l]).map (fun l' => Ev.started l' f)) := by
  induction ls1 with
  | nil => simp [dispatchStartedE, h2]
  | cons a rest ih =>
      simp [dispatchStartedE, h1 a (List.mem_cons_self _ _),
        ih (fun l' hl' => h1 l' (List.mem_cons_of_mem _ hl'))]

theorem dispatchStoppedE_error (B : Behavior) (f : Fact) (ls1 : List Nat)
    (l : Nat) (ls2 : List Nat)
    (h1 : ∀ l' ∈ ls1, B.failStop l' f = false)
    (h2 : B.failStop l f = true) :
    dispatchStoppedE B f (ls1 ++ l :: ls2) =
      .error ((ls1 ++ [l]).map (fun l' => Ev.stopped l' f)) := by
  induction ls1 with
  | nil => simp [dispatchStoppedE, h2]
  | cons a rest ih =>
      simp [dispatchStoppedE, h1 a (List.mem_cons_self _ _),
        ih (fun l' hl' => h1 l' (List.mem_cons_of_mem _ hl'))]

theorem processFactE_ok (B : Behavior) (ls : List Nat) (c : FactsCache)
    (f : Fact) (h1 : ∀ l, B.failStart l f = false)
    (h2 : ∀ l, B.failStop l f = false) :
    processFactE B ls c f = .ok (processFact ls c f) := by
  rcases hc : cacheGet c f.id with _ | cf
  · rcases hf : f.end_time with _ | t
    · simp [processFactE, processFact, hc, hf,
        dispatchStartedE_ok B f ls (fun l _ => h1 l)]
    · simp [processFactE, processFact, hc, hf,
        dispatchStartedE_ok B f ls (fun l _ => h1 l),
        dispatchStoppedE_ok B f ls (fun l _ => h2 l)]
  · by_cases he : cf = f
    · subst he
      simp [processFactE, processFact, hc]
    · rcases hf : f.end_time with _ | t
      · simp [processFactE, processFact, hc, he, hf]
      · rcases hcf : cf.end_time with _ | s
        · simp [processFactE, processFact, hc, he, hf, hcf,
            dispatchStoppedE_ok B f ls (fun l _ => h2 l)]
        · simp [processFactE, processFact, hc, he, hf, hcf]

theorem processFactsE_ok (B : Behavior) (ls : List Nat) (c : FactsCache)
    (fs : List Fact)
    (h : ∀ g ∈ fs, (∀ l, B.failStart l g = false) ∧
      (∀ l, B.failStop l g = false)) :
    processFactsE B ls c fs = .ok (processFacts ls c fs) := by
  induction fs generalizing c with
  | nil => rfl
  | cons f rest ih =>
      have hf := h f (List.mem_cons_self _ _)
      have hrest :=
        ih (processFact ls c f).1 (fun g hg => h g (List.mem_cons_of_mem _ hg))
      simp [processFactsE, processFacts,
        processFactE_ok B ls c f hf.1 hf.2, hrest]

theorem processE_noFail (ls : List Nat) (c : FactsCache) (fs : List Fact) :
    processE noFail ls c fs = .ok (process ls c fs) :=
  processFactsE_ok noFail ls _ fs
    (fun _ _ => ⟨fun _ => rfl, fun _ => rfl⟩)

theorem processFactE_error_start (B : Behavior) (ls1 : List Nat) (l : Nat)
    (ls2 : List Nat) (c : FactsCache) (f : Fact)
    (hc : cacheGet c f.id = none)
    (h1 : ∀ l' ∈ ls1, B.failStart l' f = false)
    (h2 : B.failStart l f = true) :
    processFactE B (ls1 ++ l :: ls2) c f =
      .error (c, (ls1 ++ [l]).map (fun l' => Ev.started l' f)) := by
  simp [processFactE, hc, dispatchStartedE_error B f ls1 l ls2 h1 h2]

theorem processFactE_error_stop (B : Behavior) (ls1 : List Nat) (l : Nat)
    (ls2 : List Nat) (c : FactsCache) (f cf : Fact)
    (hc : cacheGet c f.id = some cf) (hopen : cf.end_time = none)
    (hclosed : f.end_time ≠ none)
    (h1 : ∀ l' ∈ ls1, B.failStop l' f = false)
    (h2 : B.failStop l f = true) :
    processFactE B (ls1 ++ l :: ls2) c f =
      .error (c, (ls1 ++ [l]).map (fun l' => Ev.stopped l' f)) := by
  have hne : cf ≠ f := fun he => hclosed (he ▸ hopen)
  rcases Option.ne_none_iff_exists'.mp hclosed with ⟨t, ht⟩
  simp [processFactE, hc, hne, hopen, ht,
    dispatchStoppedE_error B f ls1 l ls2 h1 h2]

theorem processFactsE_error_head (B : Behavior) (ls : List Nat)
    (c : FactsCache) (f : Fact) (rest : List Fact)
    (r : FactsCache × List Ev) (h : processFactE B ls c f = .error r) :
    processFactsE B ls c (f :: rest) = .error r := by
  simp [processFactsE, h]

/-- Claim C9: a listener raising in `on_fact_started` or `on_fact_stopped`
propagates out of `process`: the trace at the exception contains exactly
the invocations of the earlier listeners and of the raiser (listeners
after it are not invoked for that event), no later fact of the tick is
processed, and the cache is the one from before the failing fact. -/
theorem C9_listener_exception_propagates (B : Behavior) (c : FactsCache)
    (f : Fact) (rest : List Fact) (ls1 : List Nat) (l : Nat) (ls2 : List Nat) :
    (cacheGet c f.id = none →
      (∀ l' ∈ ls1, B.failStart l' f = false) →
      B.failStart l f = true →
      processE B (ls1 ++ l :: ls2) c (f :: rest) =
        .error (cleanup_extraneous_facts_cache_entries c (f :: rest),
          (ls1 ++ [l]).map (fun l' => Ev.started l' f))) ∧
    (∀ cf, cacheGet c f.id = some cf → cf.end_time = none →
      f.end_time ≠ none →
      (∀ l' ∈ ls1, B.failStop l' f = false) →
      B.failStop l f = true →
      processE B (ls1 ++ l :: ls2) c (f :: rest) =
        .error (cleanup_extraneous_facts_cache_entries c (f :: rest),
          (ls1 ++ [l]).map (fun l' => Ev.stopped l' f))) := by
  constructor
  · intro hc h1 h2
    unfold processE
    exact processFactsE_error_head B _ _ f rest _
      (processFactE_error_start B ls1 l ls2 _ f
        (cacheGet_cleanup_none c (f :: rest) f.id hc) h1 h2)
  · intro cf hc hopen hclosed h1 h2
    unfold processE
    refine processFactsE_error_head B _ _ f rest _ ?_
    refine processFactE_error_stop B ls1 l ls2 _ f cf ?_ hopen hclosed h1 h2
    rw [cacheGet_cleanup_of_mem c (f :: rest) f.id
      ⟨f, List.mem_cons_self _ _, rfl⟩]
    exact hc

/-- Witness for C1: cached open fact 1, snapshot stops it. -/
theorem C1_stop_transition_fires_stop_once_witness :
    (([factClosed1].map Fact.id).Nodup ∧ factClosed1 ∈ [factClosed1] ∧
      cacheGet [(1, factOpen1)] factClosed1.id = some factOpen1 ∧
      factOpen1.end_time = none ∧ factClosed1.end_time ≠ none) ∧
    (evsFor factClosed1 (process [0] [(1, factOpen1)] [factClosed1]).2 =
        [0].map (fun l => Ev.stopped l factClosed1) ∧
      (∀ l, Ev.started l factClosed1 ∉
        (process [0] [(1, factOpen1)] [factClosed1]).2) ∧
      ([0].Nodup → ∀ l ∈ [0],
        (process [0] [(1, factOpen1)] [factClosed1]).2.count
          (Ev.stopped l factClosed1) = 1) ∧
      process [0] (process [0] [(1, factOpen1)] [factClosed1]).1 [factClosed1] =
        ((process [0] [(1, factOpen1)] [factClosed1]).1, [])) :=
  ⟨⟨by decide, List.mem_cons_self _ _, rfl, rfl, by decide⟩,
    C1_stop_transition_fires_stop_once [0] [(1, factOpen1)] [factClosed1]
      factClosed1 factOpen1 (by decide) (List.mem_cons_self _ _) rfl rfl
      (by decide)⟩

/-- Witness for C2: fact 1 first observed already stopped. -/
theorem C2_new_closed_fact_fires_start_then_stop_witness :
    (([factClosed1].map Fact.id).Nodup ∧ factClosed1 ∈ [factClosed1] ∧
      cacheGet [] factClosed1.id = none ∧ factClosed1.end_time ≠ none) ∧
    evsFor factClosed1 (process [0] [] [factClosed1]).2 =
      [0].map (fun l => Ev.started l factClosed1) ++
        [0].map (fun l => Ev.stopped l factClosed1) :=
  ⟨⟨by decide, List.mem_cons_self _ _, rfl, by decide⟩,
    C2_new_closed_fact_fires_start_then_stop [0] [] [factClosed1] factClosed1
      (by decide) (List.mem_cons_self _ _) rfl (by decide)⟩

/-- Witness for C3: fact 1 first observed in progress. -/
theorem C3_new_open_fact_fires_start_only_witness :
    (([factOpen1].map Fact.id).Nodup ∧ factOpen1 ∈ [factOpen1] ∧
      cacheGet [] factOpen1.id = none ∧ factOpen1.end_time = none) ∧
    (evsFor factOpen1 (process [0] [] [factOpen1]).2 =
        [0].map (fun l => Ev.started l factOpen1) ∧
      (∀ l, Ev.stopped l factOpen1 ∉ (process [0] [] [factOpen1]).2)) :=
  ⟨⟨by decide, List.mem_cons_self _ _, rfl, rfl⟩,
    C3_new_open_fact_fires_start_only [0] [] [factOpen1] factOpen1
      (by decide) (List.mem_cons_self _ _) rfl rfl⟩

/-- Witness for C4: cache already mirrors the snapshot. -/
theorem C4_unchanged_snapshot_is_silent_witness :
    ((∀ p ∈ [(1, factOpen1)], ∃ f ∈ [factOpen1], f.id = p.1) ∧
      (∀ f ∈ [factOpen1], cacheGet [(1, factOpen1)] f.id = some f)) ∧
    process [0] [(1, factOpen1)] [factOpen1] = ([(1, factOpen1)], []) :=
  ⟨⟨by decide, by decide⟩,
    C4_unchanged_snapshot_is_silent [0] [(1, factOpen1)] [factOpen1]
      (by decide) (by decide)⟩

/-- Witness for C5: two distinct new facts populate the cache. -/
theorem C5_cache_mirrors_snapshot_witness :
    ([factOpen1, factOpen2].map Fact.id).Nodup ∧
    ((∀ f ∈ [factOpen1, factOpen2],
        cacheGet (process [0] [] [factOpen1, factOpen2]).1 f.id = some f) ∧
      (∀ p ∈ (process [0] [] [factOpen1, factOpen2]).1,
        ∃ f ∈ [factOpen1, factOpen2], f.id = p.1)) :=
  ⟨by decide,
    C5_cache_mirrors_snapshot [0] [] [factOpen1, factOpen2] (by decide)⟩

/-- Witness for C6: cached open fact 1 vanishes from the snapshot. -/
theorem C6_eviction_is_silent_witness :
    (cacheGet [(1, factOpen1)] 1 = some factOpen1 ∧
      factOpen1.end_time = none ∧ (∀ f ∈ [factOpen2], f.id ≠ 1)) ∧
    (cacheGet (process [0] [(1, factOpen1)] [factOpen2]).1 1 = none ∧
      (∀ ev ∈ (process [0] [(1, factOpen1)] [factOpen2]).2,
        ev.factOf.id ≠ 1)) :=
  ⟨⟨rfl, rfl, by decide⟩,
    C6_eviction_is_silent [0] [(1, factOpen1)] [factOpen2] 1 factOpen1
      rfl rfl (by decide)⟩

/-- Witness for C7: fact 1 keeps running but its label changes. -/
theorem C7_non_transition_update_is_silent_witness :
    (([factEdited1].map Fact.id).Nodup ∧ factEdited1 ∈ [factEdited1] ∧
      cacheGet [(1, factOpen1)] factEdited1.id = some factOpen1 ∧
      (factOpen1.end_time = none ↔ factEdited1.end_time = none)) ∧
    (evsFor factEdited1 (process [0] [(1, factOpen1)] [factEdited1]).2 = [] ∧
      cacheGet (process [0] [(1, factOpen1)] [factEdited1]).1 factEdited1.id =
        some factEdited1 ∧
      (∀ c2 k, k ≠ factEdited1.id →
        cacheGet (processFact [0] c2 factEdited1).1 k = cacheGet c2 k)) :=
  ⟨⟨by decide, List.mem_cons_self _ _, rfl, Iff.rfl⟩,
    C7_non_transition_update_is_silent [0] [(1, factOpen1)] [factEdited1]
      factEdited1 factOpen1 (by decide) (List.mem_cons_self _ _) rfl Iff.rfl⟩

/-- Witness for C8: registering listener 0 twice into registry [1]. -/
theorem C8_add_listener_idempotent_witness :
    (0 : Nat) ∉ [1] ∧
    add_listener (add_listener [1] 0) 0 = add_listener [1] 0 ∧
    (add_listener [1] 0).count 0 = 1 ∧
    ((add_listener [1] 0).map (fun l' => Ev.started l' factOpen1)).count
      (Ev.started 0 factOpen1) = 1 :=
  ⟨by decide, (C8_add_listener_idempotent [1] 0 factOpen1).1,
    ((C8_add_listener_idempotent [1] 0 factOpen1).2 (by decide)).1,
    ((C8_add_listener_idempotent [1] 0 factOpen1).2 (by decide)).2⟩

/-- Witness for C9: listener 0 raises; listener 1 is never invoked, in
a start dispatch (new fact 1) and in a stop dispatch (cached fact 1
stopping). -/
theorem C9_listener_exception_propagates_witness :
    (cacheGet [] factOpen1.id = none ∧
      alwaysRaise.failStart 0 factOpen1 = true ∧
      processE alwaysRaise ([] ++ 0 :: [1]) [] (factOpen1 :: []) =
        .error (cleanup_extraneous_facts_cache_entries [] (factOpen1 :: []),
          ([] ++ [0]).map (fun l' => Ev.started l' factOpen1))) ∧
    (cacheGet [(1, factOpen1)] factClosed1.id = some factOpen1 ∧
      factOpen1.end_time = none ∧ factClosed1.end_time ≠ none ∧
      alwaysRaise.failStop 0 factClosed1 = true ∧
      processE alwaysRaise ([] ++ 0 :: [1]) [(1, factOpen1)]
          (factClosed1 :: []) =
        .error (cleanup_extraneous_facts_cache_entries [(1, factOpen1)]
            (factClosed1 :: []),
          ([] ++ [0]).map (fun l' => Ev.stopped l' factClosed1))) :=
  ⟨⟨rfl, rfl,
      (C9_listener_exception_propagates alwaysRaise [] factOpen1 [] [] 0
        [1]).1 rfl (by simp) rfl⟩,
    ⟨rfl, rfl, by decide, rfl,
      (C9_listener_exception_propagates alwaysRaise [(1, factOpen1)]
        factClosed1 [] [] 0 [1]).2 factOpen1 rfl rfl (by decide) (by simp)
        rfl⟩⟩

end HamsterBridge
